import Mathlib

/-!
Verification of the open-circuit-detector core: a shallow embedding of
`src/graph/circuit_graph.py`, `src/analyzer/open_detector.py` and the parts of
`src/parser/element_types.py` the connectivity analysis depends on, together
with proofs and refutations of the specified properties.

Modelling conventions:
* Python strings are Lean `String`s; `str.lower()` / `str.upper()` are the
  character-wise ASCII maps `pyLower` / `pyUpper` (SPICE node names are ASCII).
* A Python `set` of strings is a duplicate-free `List String` (`NSet`) built by
  `NSet.ins`, which inserts at the end when absent.  Python set iteration order
  is unspecified; the embedding fixes insertion order.
* A Python `defaultdict(set)` is an association list `AdjList`; reading a
  missing key yields the empty set (`dget`), exactly the observable behaviour
  of `defaultdict` (nothing in the analysed code ever iterates the dict keys).
* A Python `dict` of elements is an association list with last-write-wins
  update preserving insertion order (`dictSet`), as Python dicts do.
* Element values are `float`s in Python; no analysed code path inspects them,
  so they are embedded as `Option ℚ` to keep equality decidable.
-/

namespace OCD

/-- Python `str.lower()` on a node spelling (character-wise ASCII lowering);
this is the normalization applied to every name entering the graph. -/
def pyLower (s : String) : String := ⟨s.data.map Char.toLower⟩

/-- Python `str.upper()` (character-wise ASCII uppering). -/
def pyUpper (s : String) : String := ⟨s.data.map Char.toUpper⟩

/-- A Python `set` of strings: duplicate-free list, insertion-ordered. -/
abbrev NSet := List String

/-- Python `set.add`: insert at the end when absent. -/
def NSet.ins (s : NSet) (x : String) : NSet := if x ∈ s then s else s ++ [x]

/-- Python set intersection `a & b` restricted to what the code observes. -/
def NSet.inter (a b : NSet) : NSet := a.filter (fun x => decide (x ∈ b))

/-- A Python `defaultdict(set)` keyed by node name. -/
abbrev AdjList := List (String × NSet)

/-- Reading `d[k]` on a `defaultdict(set)`: the stored set, or the empty set. -/
def dget (d : AdjList) (k : String) : NSet :=
  match d.find? (fun p => p.1 == k) with
  | some p => p.2
  | none => []

/-- Running `d[k].add(v)` on a `defaultdict(set)`. -/
def dadd (d : AdjList) (k v : String) : AdjList :=
  match d with
  | [] => [(k, [v])]
  | (k1, s) :: rest =>
    if k1 = k then (k1, NSet.ins s v) :: rest else (k1, s) :: dadd rest k v

/-- Every node name occurring in an adjacency dict (keys and neighbor sets). -/
def adjSupport (d : AdjList) : List String :=
  d.foldr (fun p acc => p.1 :: (p.2 ++ acc)) []

/-- Number of support nodes not yet visited, the DFS/BFS termination measure. -/
def unvisitedCount (d : AdjList) (visited : NSet) : Nat :=
  ((adjSupport d).filter (fun x => decide (x ∉ visited))).length

/- Basic lemmas about the set/dict model, needed below for termination. -/

theorem NSet.mem_ins {s : NSet} {x y : String} : y ∈ NSet.ins s x ↔ y ∈ s ∨ y = x := by
  unfold NSet.ins
  by_cases h : x ∈ s
  · simp only [if_pos h]
    constructor
    · exact Or.inl
    · rintro (hy | rfl)
      · exact hy
      · exact h
  · simp [if_neg h]

theorem mem_foldl_ins (l : List String) (v : NSet) (y : String) :
    y ∈ l.foldl NSet.ins v ↔ y ∈ v ∨ y ∈ l := by
  induction l generalizing v with
  | nil => simp
  | cons a l ih =>
    simp only [List.foldl_cons, ih, NSet.mem_ins, List.mem_cons]
    tauto

theorem dget_subset_adjSupport (d : AdjList) (k : String) :
    ∀ y ∈ dget d k, y ∈ adjSupport d := by
  induction d with
  | nil => intro y hy; simp [dget] at hy
  | cons p rest ih =>
    intro y hy
    simp only [dget, List.find?] at hy
    by_cases h : p.1 == k
    · simp [h] at hy
      simp [adjSupport]
      right; left; exact hy
    · simp [h] at hy
      simp [adjSupport]
      right; right
      exact ih y (by simpa [dget] using hy)

theorem dget_eq_nil_of_not_mem_adjSupport (d : AdjList) (k : String)
    (h : k ∉ adjSupport d) : dget d k = [] := by
  induction d with
  | nil => rfl
  | cons p rest ih =>
    have h1 : ¬(k = p.1 ∨ k ∈ p.2 ∨ k ∈ adjSupport rest) := by
      intro hor
      apply h
      simp only [adjSupport, List.foldr, List.mem_cons, List.mem_append]
      tauto
    rw [not_or, not_or] at h1
    have hne : (p.1 == k) = false := by
      simp only [beq_eq_false_iff_ne]
      intro he; exact h1.1 he.symm
    simp only [dget, List.find?, hne]
    exact ih h1.2.2

theorem filter_length_le {l : List String} {p q : String → Bool}
    (himp : ∀ x, q x = true → p x = true) :
    (l.filter q).length ≤ (l.filter p).length := by
  induction l with
  | nil => simp
  | cons b bs ih =>
    by_cases hq : q b = true
    · simp [List.filter, hq, himp b hq]; omega
    · have hq' : q b = false := by simpa using hq
      by_cases hp : p b = true
      · simp [List.filter, hq', hp]; omega
      · have hp' : p b = false := by simpa using hp
        simp [List.filter, hq', hp']; omega

theorem filter_length_lt {l : List String} {p q : String → Bool} (a : String)
    (ha : a ∈ l) (hpa : p a = true) (hqa : q a = false)
    (himp : ∀ x, q x = true → p x = true) :
    (l.filter q).length < (l.filter p).length := by
  induction l with
  | nil => simp at ha
  | cons b bs ih =>
    rcases List.mem_cons.mp ha with rfl | ha
    · simp only [List.filter, hqa, hpa]
      have := filter_length_le (l := bs) himp
      simp; omega
    · by_cases hq : q b = true
      · simp [List.filter, hq, himp b hq]
        exact ih ha
      · have hq' : q b = false := by simpa using hq
        by_cases hp : p b = true
        · simp [List.filter, hq', hp]
          have := ih ha; omega
        · have hp' : p b = false := by simpa using hp
          simp [List.filter, hq', hp']
          exact ih ha

theorem unvisited_lt (d : AdjList) (visited : NSet) (node : String)
    (hmem : node ∈ adjSupport d) (hnv : node ∉ visited) :
    unvisitedCount d (NSet.ins visited node) < unvisitedCount d visited := by
  apply filter_length_lt node hmem
  · simp [hnv]
  · simp [NSet.mem_ins]
  · intro x hx
    simp only [decide_eq_true_eq] at hx ⊢
    intro hxv
    exact hx (NSet.mem_ins.mpr (Or.inl hxv))

theorem unvisited_eq_of_not_mem (d : AdjList) (visited : NSet) (node : String)
    (hmem : node ∉ adjSupport d) :
    unvisitedCount d (NSet.ins visited node) = unvisitedCount d visited := by
  unfold unvisitedCount
  congr 1
  apply List.filter_congr
  intro x hx
  have hne : x ≠ node := fun he => hmem (he ▸ hx)
  simp [NSet.mem_ins, hne]

theorem unvisited_foldl_lt (d : AdjList) (visited : NSet) (x : String) (l : List String)
    (hx : x ∈ l) (hxs : x ∈ adjSupport d) (hxv : x ∉ visited) :
    unvisitedCount d (l.foldl NSet.ins visited) < unvisitedCount d visited := by
  apply filter_length_lt x hxs
  · simp [hxv]
  · simp [mem_foldl_ins, hx]
  · intro y hy
    simp only [decide_eq_true_eq, mem_foldl_ins, not_or] at hy ⊢
    exact hy.1

/-! ## Element model (`src/parser/element_types.py`) -/

/-- The `ElementType` enum from `src/parser/element_types.py`. -/
inductive ElementType
  | RESISTOR
  | CAPACITOR
  | COUPLING_CAPACITOR
  | INDUCTOR
  | VOLTAGE_SOURCE
  | CURRENT_SOURCE
deriving DecidableEq, Repr

/-- The `Element` dataclass: `{name, node1, node2, value, element_type}`. -/
structure Element where
  name : String
  node1 : String
  node2 : String
  value : Option ℚ := none
  element_type : ElementType
deriving DecidableEq, Repr

/-- The `Subcircuit` dataclass: `{name, ports, elements, internal_nodes}`. -/
structure Subcircuit where
  name : String
  ports : List String
  elements : List Element
  internal_nodes : NSet := []
deriving DecidableEq, Repr

/-- The `SubcircuitInstance` dataclass: an `x` line of the netlist. -/
structure SubcircuitInstance where
  instance_name : String
  subcircuit_type : String
  connections : List String
deriving DecidableEq, Repr

/-- The `TopLevelNetlist` dataclass (the subcircuits dict keeps insertion order). -/
structure TopLevelNetlist where
  subcircuits : List (String × Subcircuit)
  instances : List SubcircuitInstance
  top_level_elements : List Element
deriving DecidableEq, Repr

/-- Python dict lookup `d.get(k)` on an association list. -/
def dictFind (d : List (String × Subcircuit)) (k : String) : Option Subcircuit :=
  match d.find? (fun p => p.1 == k) with
  | some p => some p.2
  | none => none

/-- Assigning `d[k] = v` on a Python dict: replace in place if present, else append. -/
def dictSet (d : List (String × Element)) (k : String) (v : Element) :
    List (String × Element) :=
  match d with
  | [] => [(k, v)]
  | (k1, v1) :: rest =>
    if k1 = k then (k1, v) :: rest else (k1, v1) :: dictSet rest k v

/-! ## `CircuitGraph` (`src/graph/circuit_graph.py`) -/

/-- The `CircuitGraph` attributes. -/
structure CircuitGraph where
  resistive_adj : AdjList
  capacitive_adj : AdjList
  all_nodes : NSet
  port_nodes : NSet
  ground_nodes : NSet
  elements : List (String × Element)
deriving DecidableEq, Repr

/-- The constructor `CircuitGraph.__init__`: everything empty except the fixed ground names. -/
def CircuitGraph.init : CircuitGraph :=
  { resistive_adj := []
    capacitive_adj := []
    all_nodes := []
    port_nodes := []
    ground_nodes := ["0", "gnd", "vss", "ground"]
    elements := [] }

/-- One iteration of the element loop in `CircuitGraph.build_from_subcircuit`:
lower both node names, record the nodes, register the element, and add a
symmetric edge for a `RESISTOR` (resistive) or a `CAPACITOR` (capacitive).
Any other element type (including `COUPLING_CAPACITOR`) adds no edge, exactly
as in the source. -/
def addElementSub (g : CircuitGraph) (e : Element) : CircuitGraph :=
  let node1 := pyLower e.node1
  let node2 := pyLower e.node2
  let g1 := { g with
    all_nodes := NSet.ins (NSet.ins g.all_nodes node1) node2
    elements := dictSet g.elements e.name e }
  match e.element_type with
  | ElementType.RESISTOR =>
      { g1 with resistive_adj := dadd (dadd g1.resistive_adj node1 node2) node2 node1 }
  | ElementType.CAPACITOR =>
      { g1 with capacitive_adj := dadd (dadd g1.capacitive_adj node1 node2) node2 node1 }
  | _ => g1

/-- Method `CircuitGraph.build_from_subcircuit`: set the (lowered) port set, then run
the element loop. -/
def build_from_subcircuit (g : CircuitGraph) (subckt : Subcircuit) : CircuitGraph :=
  subckt.elements.foldl addElementSub
    { g with port_nodes := (subckt.ports.map pyLower).foldl NSet.ins [] }

/-- The stack-based DFS loop of `CircuitGraph.get_resistive_connected_component`:
pop a node, skip it if visited, otherwise mark it visited and push its
not-yet-visited resistive neighbors. -/
def dfsAux (d : AdjList) (stack : List String) (visited : NSet) : NSet :=
  match stack with
  | [] => visited
  | node :: rest =>
    if node ∈ visited then
      dfsAux d rest visited
    else
      let visited2 := NSet.ins visited node
      let nbrs := (dget d node).filter (fun x => decide (x ∉ visited2))
      dfsAux d (nbrs ++ rest) visited2
termination_by (unvisitedCount d visited, stack.length)
decreasing_by
  · apply Prod.Lex.right
    simp
  · by_cases hm : node ∈ adjSupport d
    · exact Prod.Lex.left _ _ (unvisited_lt d visited node hm (by assumption))
    · have h1 : unvisitedCount d (NSet.ins visited node) = unvisitedCount d visited :=
        unvisited_eq_of_not_mem d visited node hm
      have h2 : dget d node = [] := dget_eq_nil_of_not_mem_adjSupport d node hm
      rw [h1, h2]
      apply Prod.Lex.right
      simp

/-- Method `CircuitGraph.get_resistive_connected_component`. -/
def get_resistive_connected_component (g : CircuitGraph) (start_node : String) : NSet :=
  dfsAux g.resistive_adj [pyLower start_node] []

/-- The node loop of `CircuitGraph.get_all_connected_components`. -/
def gaccGo (g : CircuitGraph) : List String → NSet → List NSet
  | [], _ => []
  | node :: rest, visited =>
    if node ∈ visited then gaccGo g rest visited
    else
      let component := get_resistive_connected_component g node
      component :: gaccGo g rest (component.foldl NSet.ins visited)

/-- Method `CircuitGraph.get_all_connected_components`. -/
def get_all_connected_components (g : CircuitGraph) : List NSet :=
  gaccGo g g.all_nodes []

/-- Method `CircuitGraph.has_ground_connection`: DFS component, then truthiness of
its intersection with the ground set. -/
def has_ground_connection (g : CircuitGraph) (node : String) : Bool :=
  !(NSet.inter (get_resistive_connected_component g node) g.ground_nodes).isEmpty

/-- Method `CircuitGraph.get_node_degree`. -/
def get_node_degree (g : CircuitGraph) (node : String)
    (include_capacitors : Bool := false) : Nat :=
  let node_lower := pyLower node
  let degree := (dget g.resistive_adj node_lower).length
  if include_capacitors then degree + (dget g.capacitive_adj node_lower).length
  else degree

/-- Modelled from the spec: `CircuitGraph.get_resistive_degree` is called by
the detector and tested in `src/tests/test_circuit_graph.py` but its body is
not under `src/`; per the glossary it is the number of distinct resistive
neighbors of the (normalized) node, absent nodes behaving as degree 0. -/
def get_resistive_degree (g : CircuitGraph) (node : String) : Nat :=
  (dget g.resistive_adj (pyLower node)).length

/-- Modelled from the spec: `CircuitGraph.get_capacitive_degree` (same status
as `get_resistive_degree`), the number of distinct capacitive neighbors. -/
def get_capacitive_degree (g : CircuitGraph) (node : String) : Nat :=
  (dget g.capacitive_adj (pyLower node)).length

/-- Modelled from the spec: `CircuitGraph.get_resistive_neighbors` (same
status), the set of resistive neighbors, empty for absent nodes (spec §7:
absent adjacency is an empty neighbor set). -/
def get_resistive_neighbors (g : CircuitGraph) (node : String) : NSet :=
  dget g.resistive_adj node

/-! ## Flattened graph building (modelled from the spec)

`CircuitGraph.build_from_netlist` is called from `src/main.py` and covered by
`src/tests/test_circuit_graph.py`, but its body is not under `src/`; it is
modelled here from spec §4.2 and §7. -/

/-- Modelled from the spec: the structural input errors of §7 that abort a
flattening run. -/
inductive FlattenError
  | portMismatch (instance_name template_name : String) (ports_len conns_len : Nat)
  | unknownTemplate (instance_name template_name : String)
deriving DecidableEq, Repr

/-- Modelled from the spec (§4.2): the flattened identity of a node referenced
inside an instantiated template — ground names are never renamed, a port maps
to the caller-supplied connection, an internal node gets an instance-scoped
composite key. -/
def flatten_node (inst : SubcircuitInstance) (portMap : List (String × String))
    (n : String) : String :=
  let ln := pyLower n
  if ln ∈ CircuitGraph.init.ground_nodes then ln
  else
    match portMap.find? (fun p => p.1 == ln) with
    | some p => p.2
    | none => pyLower inst.instance_name ++ "_" ++ ln

/-- Modelled from the spec (§3, §4.2): register an already-renamed element and
add its symmetric edge — Resistor resistively, Capacitor and CouplingCapacitor
both capacitively. -/
def addElementFlat (g : CircuitGraph) (name n1 n2 : String) (e : Element) : CircuitGraph :=
  let e2 : Element := { e with name := name, node1 := n1, node2 := n2 }
  let g1 := { g with
    all_nodes := NSet.ins (NSet.ins g.all_nodes n1) n2
    elements := dictSet g.elements name e2 }
  match e.element_type with
  | ElementType.RESISTOR =>
      { g1 with resistive_adj := dadd (dadd g1.resistive_adj n1 n2) n2 n1 }
  | ElementType.CAPACITOR =>
      { g1 with capacitive_adj := dadd (dadd g1.capacitive_adj n1 n2) n2 n1 }
  | ElementType.COUPLING_CAPACITOR =>
      { g1 with capacitive_adj := dadd (dadd g1.capacitive_adj n1 n2) n2 n1 }
  | _ => g1

/-- Modelled from the spec (§4.2): flatten one instantiation — resolve the
template, fail hard on a port/connection length mismatch, otherwise re-emit
every template element under instance-scoped names. -/
def flattenInstance (nl : TopLevelNetlist) (g : CircuitGraph)
    (inst : SubcircuitInstance) : Except FlattenError CircuitGraph :=
  match dictFind nl.subcircuits inst.subcircuit_type with
  | none => Except.error (FlattenError.unknownTemplate inst.instance_name inst.subcircuit_type)
  | some tmpl =>
    if tmpl.ports.length = inst.connections.length then
      let portMap := List.zip (tmpl.ports.map pyLower) (inst.connections.map pyLower)
      Except.ok (tmpl.elements.foldl
        (fun g e => addElementFlat g
          (pyLower inst.instance_name ++ "_" ++ e.name)
          (flatten_node inst portMap e.node1)
          (flatten_node inst portMap e.node2) e) g)
    else
      Except.error (FlattenError.portMismatch inst.instance_name inst.subcircuit_type
        tmpl.ports.length inst.connections.length)

/-- Modelled from the spec (§4.2, §7): `CircuitGraph.build_from_netlist` —
flatten every instantiation (aborting on the first structural error), then add
the top-level elements under their literal (lowered) names; `port_nodes` is
not populated in flattened mode. -/
def build_from_netlist (g : CircuitGraph) (nl : TopLevelNetlist) :
    Except FlattenError CircuitGraph := do
  let g1 ← nl.instances.foldlM (flattenInstance nl) g
  return nl.top_level_elements.foldl
    (fun g e => addElementFlat g e.name (pyLower e.node1) (pyLower e.node2) e) g1

/-! ## Detector (`src/analyzer/open_detector.py`) -/

/-- The `OpenType` enum. -/
inductive OpenType
  | FLOATING_NODE
  | ISOLATED_COMPONENT
  | FLOATING_PORT
  | CAPACITOR_ONLY
  | DC_FLOATING_NODE
deriving DecidableEq, Repr

/-- The `OpenCircuit` named tuple. -/
structure OpenCircuit where
  node : String
  open_type : OpenType
  description : String
  affected_elements : List String
  severity : String
deriving DecidableEq, Repr

/-- An ASCII apostrophe, used by the Python f-strings in the descriptions. -/
def apos : String := String.singleton (Char.ofNat 39)

/-- Method `OpenCircuitDetector._get_connected_elements`: names of the registered
elements with an endpoint (lowered) equal to the given node. -/
def get_connected_elements (g : CircuitGraph) (node : String) : List String :=
  (g.elements.filter
    (fun p => pyLower p.2.node1 == node || pyLower p.2.node2 == node)).map (fun p => p.1)

/-- Method `OpenCircuitDetector._get_elements_in_component`. -/
def get_elements_in_component (g : CircuitGraph) (component : NSet) : List String :=
  (g.elements.filter
    (fun p => decide (pyLower p.2.node1 ∈ component) ||
              decide (pyLower p.2.node2 ∈ component))).map (fun p => p.1)

/-- The findings appended by `OpenCircuitDetector._detect_floating_nodes`
(pure in the graph; the method appends them to `self.issues`). -/
def floatingNodeFindings (g : CircuitGraph) : List OpenCircuit :=
  (g.all_nodes.filter (fun node =>
      decide (node ∉ g.ground_nodes) && decide (node ∉ g.port_nodes) &&
      (dget g.resistive_adj node).length == 0 &&
      (dget g.capacitive_adj node).length == 0)).map (fun node =>
    { node := node
      open_type := OpenType.FLOATING_NODE
      description := "Node " ++ apos ++ node ++ apos ++ " has no connections"
      affected_elements := []
      severity := "critical" })

/-- Python `sorted`: stable insertion into lexicographic order. -/
def insertSorted (x : String) : List String → List String
  | [] => [x]
  | y :: ys => if x ≤ y then x :: y :: ys else y :: insertSorted x ys

/-- Python `sorted(component)`. -/
def sortNodes (l : List String) : List String := l.foldr insertSorted []

/-- The `nodes_str` label built by `_detect_isolated_components`: first five
sorted names, with a `"... (+N more)"` suffix for components above five. -/
def isolatedLabel (component : NSet) : String :=
  let nodes_str := String.intercalate ", " ((sortNodes component).take 5)
  if 5 < component.length then
    nodes_str ++ "... (+" ++ toString (component.length - 5) ++ " more)"
  else nodes_str

/-- The findings appended by `OpenCircuitDetector._detect_isolated_components`:
resistive components with no ground node, reported only when some member has a
resistive connection. -/
def isolatedComponentFindings (g : CircuitGraph) : List OpenCircuit :=
  ((get_all_connected_components g).filter (fun component =>
      (NSet.inter component g.ground_nodes).isEmpty &&
      decide (0 < component.length) &&
      decide (0 < (component.filter
        (fun n => decide (0 < (dget g.resistive_adj n).length))).length))).map
    (fun component =>
      { node := isolatedLabel component
        open_type := OpenType.ISOLATED_COMPONENT
        description := "Isolated component with " ++ toString component.length ++
          " nodes has no ground path"
        affected_elements := get_elements_in_component g component
        severity := "critical" })

/-- The findings appended by `OpenCircuitDetector._detect_floating_ports`. -/
def floatingPortFindings (g : CircuitGraph) : List OpenCircuit :=
  (g.port_nodes.filter (fun port =>
      decide (port ∉ g.ground_nodes) &&
      (dget g.resistive_adj port).length == 0 &&
      (dget g.capacitive_adj port).length == 0)).map (fun port =>
    { node := port
      open_type := OpenType.FLOATING_PORT
      description := "Port " ++ apos ++ port ++ apos ++
        " is declared but not used inside the subcircuit"
      affected_elements := []
      severity := "warning" })

/-- The findings appended by `OpenCircuitDetector._detect_capacitor_only_nodes`. -/
def capacitorOnlyFindings (g : CircuitGraph) : List OpenCircuit :=
  (g.all_nodes.filter (fun node =>
      decide (node ∉ g.ground_nodes) && decide (node ∉ g.port_nodes) &&
      (dget g.resistive_adj node).length == 0 &&
      decide (0 < (dget g.capacitive_adj node).length))).map (fun node =>
    { node := node
      open_type := OpenType.CAPACITOR_ONLY
      description := "Node " ++ apos ++ node ++ apos ++
        " is connected only via capacitors (no DC path)"
      affected_elements := get_connected_elements g node
      severity := "warning" })

/-- The BFS loop of `OpenCircuitDetector._has_resistive_path_to_ground`:
dequeue a node, succeed if it is a ground name, otherwise enqueue and mark its
unvisited resistive neighbors; fail when the queue empties. -/
def bfsGround (g : CircuitGraph) (queue : List String) (visited : NSet) : Bool :=
  match queue with
  | [] => false
  | node :: rest =>
    if node ∈ g.ground_nodes then true
    else
      let newNbrs := (get_resistive_neighbors g node).filter (fun x => decide (x ∉ visited))
      bfsGround g (rest ++ newNbrs) (newNbrs.foldl NSet.ins visited)
termination_by (unvisitedCount g.resistive_adj visited, queue.length)
decreasing_by
  · rcases List.eq_nil_or_concat
        ((get_resistive_neighbors g node).filter (fun x => decide (x ∉ visited)))
      with hne | ⟨l1, a, hconc⟩
    · rw [hne]
      simp only [List.foldl_nil, List.append_nil]
      exact Prod.Lex.right _ (by simp)
    · have hex : ∃ x, x ∈ (get_resistive_neighbors g node).filter
          (fun x => decide (x ∉ visited)) :=
        ⟨a, by rw [hconc]; simp⟩
      rcases hex with ⟨x, hx⟩
      have hx1 : x ∈ dget g.resistive_adj node := (List.mem_filter.mp hx).1
      have hx2 : x ∉ visited := by
        have := (List.mem_filter.mp hx).2
        simpa using this
      apply Prod.Lex.left
      exact unvisited_foldl_lt g.resistive_adj visited x _ hx
        (dget_subset_adjSupport g.resistive_adj node x hx1) hx2

/-- Method `OpenCircuitDetector._has_resistive_path_to_ground`. -/
def has_resistive_path_to_ground (g : CircuitGraph) (start_node : String) : Bool :=
  bfsGround g [pyLower start_node] [pyLower start_node]

/-- The description built by `_detect_dc_floating_nodes` for a node. -/
def dcDescription (g : CircuitGraph) (node : String) : String :=
  "Node " ++ apos ++ node ++ apos ++ " has " ++ toString (get_capacitive_degree g node) ++
    " capacitive connections but no DC path to ground (r_degree=" ++
    toString (get_resistive_degree g node) ++ ")"

/-- The findings appended by `OpenCircuitDetector._detect_dc_floating_nodes`. -/
def dcFloatingFindings (g : CircuitGraph) : List OpenCircuit :=
  (g.all_nodes.filter (fun node =>
      decide (node ∉ g.ground_nodes) &&
      decide (0 < get_capacitive_degree g node) &&
      !has_resistive_path_to_ground g node)).map (fun node =>
    { node := node
      open_type := OpenType.DC_FLOATING_NODE
      description := dcDescription g node
      affected_elements := get_connected_elements g node
      severity := "error" })

/-- The `OpenCircuitDetector` instance state: the graph handed to `__init__` and
the mutable `self.issues` list. -/
structure OpenCircuitDetector where
  graph : CircuitGraph
  issues : List OpenCircuit
deriving DecidableEq, Repr

/-- Method `OpenCircuitDetector.detect_all`: reset `self.issues`, run the four
standard detections in order, return the final state and the issues list. -/
def detect_all (d : OpenCircuitDetector) : OpenCircuitDetector × List OpenCircuit :=
  let d0 := { d with issues := [] }
  let d1 := { d0 with issues := d0.issues ++ floatingNodeFindings d0.graph }
  let d2 := { d1 with issues := d1.issues ++ isolatedComponentFindings d1.graph }
  let d3 := { d2 with issues := d2.issues ++ floatingPortFindings d2.graph }
  let d4 := { d3 with issues := d3.issues ++ capacitorOnlyFindings d3.graph }
  (d4, d4.issues)

/-- Method `OpenCircuitDetector.detect_all_flattened`: reset, run floating-node,
isolated-component and floating-port detection, skip capacitor-only, then run
DC-floating detection. -/
def detect_all_flattened (d : OpenCircuitDetector) :
    OpenCircuitDetector × List OpenCircuit :=
  let d0 := { d with issues := [] }
  let d1 := { d0 with issues := d0.issues ++ floatingNodeFindings d0.graph }
  let d2 := { d1 with issues := d1.issues ++ isolatedComponentFindings d1.graph }
  let d3 := { d2 with issues := d2.issues ++ floatingPortFindings d2.graph }
  let d4 := { d3 with issues := d3.issues ++ dcFloatingFindings d3.graph }
  (d4, d4.issues)

/-- The flatten-and-detect pipeline of `src/main.py` (default mode): build the
flattened graph, then run flattened detection; a structural flattening error
aborts the run. -/
def flatten_and_detect (nl : TopLevelNetlist) : Except FlattenError (List OpenCircuit) := do
  let g ← build_from_netlist CircuitGraph.init nl
  return (detect_all_flattened { graph := g, issues := [] }).2

/-! ## Concrete fixtures used by the witnesses and counterexamples -/

/-- The subcircuit of the repository test `test_coupling_capacitor_handling`:
one coupling capacitor `cc1` between `A` and `B`. -/
def subcktCC : Subcircuit :=
  { name := "test", ports := ["A", "B", "VSS"],
    elements := [{ name := "cc1", node1 := "A", node2 := "B", value := none,
                   element_type := ElementType.COUPLING_CAPACITOR }] }

/-- A node `x` attached to port `a` only through capacitor `c1`. -/
def subcktCapOnly : Subcircuit :=
  { name := "s", ports := ["a"],
    elements := [{ name := "c1", node1 := "x", node2 := "a", value := none,
                   element_type := ElementType.CAPACITOR }] }

def graphCapOnly : CircuitGraph := build_from_subcircuit CircuitGraph.init subcktCapOnly

def detCapOnly : OpenCircuitDetector := { graph := graphCapOnly, issues := [] }

/-- A grounded resistor `r1` between `A` and `VSS`. -/
def subcktR : Subcircuit :=
  { name := "s", ports := ["A", "VSS"],
    elements := [{ name := "r1", node1 := "A", node2 := "VSS", value := none,
                   element_type := ElementType.RESISTOR }] }

def graphR : CircuitGraph := build_from_subcircuit CircuitGraph.init subcktR

/-- One spelling of a template. -/
def subcktCaseA : Subcircuit :=
  { name := "s", ports := ["A"],
    elements := [{ name := "r1", node1 := "A", node2 := "B", value := none,
                   element_type := ElementType.RESISTOR }] }

/-- And the same template differing only in letter case. -/
def subcktCaseB : Subcircuit :=
  { name := "s", ports := ["a"],
    elements := [{ name := "R1", node1 := "a", node2 := "b", value := none,
                   element_type := ElementType.RESISTOR }] }

def graphCC : CircuitGraph := build_from_subcircuit CircuitGraph.init subcktCC

def detCC : OpenCircuitDetector := { graph := graphCC, issues := [] }

/-- The same element as in `subcktCC` but retyped as a plain capacitor. -/
def subcktCCasCap : Subcircuit :=
  { name := "test", ports := ["A", "B", "VSS"],
    elements := [{ name := "cc1", node1 := "A", node2 := "B", value := none,
                   element_type := ElementType.CAPACITOR }] }

/-- The floating-port finding the detector produces for port `a` of
`subcktCC`. -/
def ocPortA : OpenCircuit :=
  { node := "a", open_type := OpenType.FLOATING_PORT,
    description := "Port " ++ apos ++ "a" ++ apos ++
      " is declared but not used inside the subcircuit",
    affected_elements := [], severity := "warning" }

/-- A template with one port, instantiated with two connections. -/
def tmplW : Subcircuit := { name := "mysub", ports := ["A"], elements := [] }

def netlistMismatch : TopLevelNetlist :=
  { subcircuits := [("mysub", tmplW)]
    instances := [{ instance_name := "x0", subcircuit_type := "mysub",
                    connections := ["p1", "p2"] }]
    top_level_elements := [] }

/-! ## Reachability through one adjacency relation -/

/-- Specification-side reachability: `ReachR d a b` holds when a path of edges
of the single adjacency relation `d` leads from `a` to `b`. -/
inductive ReachR (d : AdjList) (a : String) : String → Prop
  | refl : ReachR d a a
  | tail {b c : String} : ReachR d a b → c ∈ dget d b → ReachR d a c

theorem ReachR.single {d : AdjList} {a b : String} (h : b ∈ dget d a) : ReachR d a b :=
  ReachR.tail ReachR.refl h

theorem ReachR.trans {d : AdjList} {a b c : String}
    (h1 : ReachR d a b) (h2 : ReachR d b c) : ReachR d a c := by
  induction h2 with
  | refl => exact h1
  | tail _ hw ih => exact ReachR.tail ih hw

/-- Symmetry of an adjacency dict, as produced by the graph builder. -/
def SymmAdj (d : AdjList) : Prop := ∀ a b, a ∈ dget d b ↔ b ∈ dget d a

theorem ReachR.symm {d : AdjList} (hd : SymmAdj d) {a b : String}
    (h : ReachR d a b) : ReachR d b a := by
  induction h with
  | refl => exact ReachR.refl
  | tail _ hw ih =>
    exact ReachR.trans (ReachR.single ((hd _ _).mp hw)) ih

/-! ## DFS correctness -/

theorem dfs_visited_subset (d : AdjList) (stack : List String) (visited : NSet) :
    ∀ x ∈ visited, x ∈ dfsAux d stack visited := by
  induction stack, visited using dfsAux.induct d with
  | case1 visited =>
    intro x hx; rw [dfsAux]; exact hx
  | case2 visited node rest h ih =>
    intro x hx; rw [dfsAux]; simp only [if_pos h]; exact ih x hx
  | case3 visited node rest h visited2 nbrs ih =>
    intro x hx; rw [dfsAux]; simp only [if_neg h]
    exact ih x (NSet.mem_ins.mpr (Or.inl hx))

theorem dfs_stack_subset (d : AdjList) (stack : List String) (visited : NSet) :
    ∀ x ∈ stack, x ∈ dfsAux d stack visited := by
  induction stack, visited using dfsAux.induct d with
  | case1 visited =>
    intro x hx; simp at hx
  | case2 visited node rest h ih =>
    intro x hx; rw [dfsAux]; simp only [if_pos h]
    rcases List.mem_cons.mp hx with rfl | hx
    · exact dfs_visited_subset d rest visited x h
    · exact ih x hx
  | case3 visited node rest h visited2 nbrs ih =>
    intro x hx; rw [dfsAux]; simp only [if_neg h]
    rcases List.mem_cons.mp hx with rfl | hx
    · exact dfs_visited_subset d _ _ x (NSet.mem_ins.mpr (Or.inr rfl))
    · exact ih x (List.mem_append.mpr (Or.inr hx))

theorem dfs_sound (d : AdjList) (P : String → Prop)
    (hcl : ∀ a b, P a → b ∈ dget d a → P b) (stack : List String) (visited : NSet) :
    (∀ x ∈ stack, P x) → (∀ x ∈ visited, P x) →
    ∀ x ∈ dfsAux d stack visited, P x := by
  induction stack, visited using dfsAux.induct d with
  | case1 visited =>
    intro _ hv x hx; rw [dfsAux] at hx; exact hv x hx
  | case2 visited node rest h ih =>
    intro hs hv x hx; rw [dfsAux] at hx; simp only [if_pos h] at hx
    exact ih (fun y hy => hs y (List.mem_cons_of_mem _ hy)) hv x hx
  | case3 visited node rest h visited2 nbrs ih =>
    intro hs hv x hx; rw [dfsAux] at hx; simp only [if_neg h] at hx
    have hnode : P node := hs node (List.mem_cons_self _ _)
    refine ih ?_ ?_ x hx
    · intro y hy
      rcases List.mem_append.mp hy with hy | hy
      · exact hcl node y hnode (List.mem_filter.mp hy).1
      · exact hs y (List.mem_cons_of_mem _ hy)
    · intro y hy
      rcases NSet.mem_ins.mp hy with hy | rfl
      · exact hv y hy
      · exact hnode

theorem dfs_closed (d : AdjList) (stack : List String) (visited : NSet) :
    (∀ v ∈ visited, ∀ w ∈ dget d v, w ∈ visited ∨ w ∈ stack) →
    ∀ v ∈ dfsAux d stack visited, ∀ w ∈ dget d v, w ∈ dfsAux d stack visited := by
  induction stack, visited using dfsAux.induct d with
  | case1 visited =>
    intro hinv v hv w hw
    rw [dfsAux] at hv ⊢
    rcases hinv v hv w hw with h | h
    · exact h
    · simp at h
  | case2 visited node rest h ih =>
    intro hinv v hv w hw
    rw [dfsAux] at hv ⊢; simp only [if_pos h] at hv ⊢
    refine ih ?_ v hv w hw
    intro v1 hv1 w1 hw1
    rcases hinv v1 hv1 w1 hw1 with h1 | h1
    · exact Or.inl h1
    · rcases List.mem_cons.mp h1 with rfl | h1
      · exact Or.inl h
      · exact Or.inr h1
  | case3 visited node rest h visited2 nbrs ih =>
    intro hinv v hv w hw
    rw [dfsAux] at hv ⊢; simp only [if_neg h] at hv ⊢
    refine ih ?_ v hv w hw
    intro v1 hv1 w1 hw1
    rcases NSet.mem_ins.mp hv1 with hv1 | rfl
    · rcases hinv v1 hv1 w1 hw1 with h1 | h1
      · exact Or.inl (NSet.mem_ins.mpr (Or.inl h1))
      · rcases List.mem_cons.mp h1 with rfl | h1
        · exact Or.inl (NSet.mem_ins.mpr (Or.inr rfl))
        · exact Or.inr (List.mem_append.mpr (Or.inr h1))
    · by_cases hwv : w1 ∈ NSet.ins visited v1
      · exact Or.inl hwv
      · refine Or.inr (List.mem_append.mpr (Or.inl ?_))
        exact List.mem_filter.mpr ⟨hw1, by simpa using hwv⟩

/-- The DFS component is exactly the set of resistively reachable nodes. -/
theorem mem_rcc_iff (g : CircuitGraph) (x y : String) :
    y ∈ get_resistive_connected_component g x ↔
      ReachR g.resistive_adj (pyLower x) y := by
  constructor
  · intro hy
    refine dfs_sound g.resistive_adj (ReachR g.resistive_adj (pyLower x))
      (fun a b ha hb => ReachR.tail ha hb) _ _ ?_ ?_ y hy
    · intro z hz
      rcases List.mem_cons.mp hz with rfl | hz
      · exact ReachR.refl
      · simp at hz
    · intro z hz; simp at hz
  · intro hreach
    induction hreach with
    | refl =>
      exact dfs_stack_subset _ _ _ _ (List.mem_cons_self _ _)
    | tail _ hw ih =>
      exact dfs_closed g.resistive_adj _ _ (by intro v hv; simp at hv) _ ih _ hw

theorem inter_nonempty_iff (a b : NSet) :
    (!(NSet.inter a b).isEmpty) = true ↔ ∃ x, x ∈ a ∧ x ∈ b := by
  simp only [NSet.inter, Bool.not_eq_true', List.isEmpty_eq_false_iff_exists_mem]
  constructor
  · rintro ⟨x, hx⟩
    have := List.mem_filter.mp hx
    exact ⟨x, this.1, by simpa using this.2⟩
  · rintro ⟨x, hx1, hx2⟩
    exact ⟨x, List.mem_filter.mpr ⟨hx1, by simpa using hx2⟩⟩

/-- The check `has_ground_connection` answers exactly resistive reachability of ground. -/
theorem has_ground_connection_iff (g : CircuitGraph) (n : String) :
    has_ground_connection g n = true ↔
      ∃ t, ReachR g.resistive_adj (pyLower n) t ∧ t ∈ g.ground_nodes := by
  unfold has_ground_connection
  rw [inter_nonempty_iff]
  constructor
  · rintro ⟨t, ht1, ht2⟩
    exact ⟨t, (mem_rcc_iff g n t).mp ht1, ht2⟩
  · rintro ⟨t, ht1, ht2⟩
    exact ⟨t, (mem_rcc_iff g n t).mpr ht1, ht2⟩

/-! ## BFS correctness -/

theorem bfs_sound (g : CircuitGraph) (P : String → Prop)
    (hcl : ∀ a b, P a → b ∈ dget g.resistive_adj a → P b)
    (queue : List String) (visited : NSet) :
    (∀ x ∈ queue, P x) → bfsGround g queue visited = true →
    ∃ t, P t ∧ t ∈ g.ground_nodes := by
  induction queue, visited using bfsGround.induct g with
  | case1 visited =>
    intro _ hfalse; rw [bfsGround] at hfalse; simp at hfalse
  | case2 visited node rest h =>
    intro hq _
    exact ⟨node, hq node (List.mem_cons_self _ _), h⟩
  | case3 visited node rest h newNbrs ih =>
    intro hq htrue
    rw [bfsGround] at htrue; simp only [if_neg h] at htrue
    refine ih ?_ htrue
    intro y hy
    rcases List.mem_append.mp hy with hy | hy
    · exact hq y (List.mem_cons_of_mem _ hy)
    · exact hcl node y (hq node (List.mem_cons_self _ _))
        (List.mem_filter.mp hy).1

theorem bfs_complete (g : CircuitGraph) (queue : List String) (visited : NSet) :
    (∀ x ∈ queue, x ∈ visited) →
    (∀ v ∈ visited, v ∈ queue ∨
      (v ∉ g.ground_nodes ∧ ∀ w ∈ dget g.resistive_adj v, w ∈ visited)) →
    bfsGround g queue visited = false →
    ∀ v ∈ visited, ∀ t, ReachR g.resistive_adj v t → t ∉ g.ground_nodes := by
  induction queue, visited using bfsGround.induct g with
  | case1 visited =>
    intro _ hinv _ v hv t hreach
    have hclosed : ∀ u ∈ visited, u ∉ g.ground_nodes ∧
        ∀ w ∈ dget g.resistive_adj u, w ∈ visited := by
      intro u hu
      rcases hinv u hu with h | h
      · simp at h
      · exact h
    have ht : t ∈ visited := by
      induction hreach with
      | refl => exact hv
      | tail _ hw ih => exact (hclosed _ ih).2 _ hw
    exact (hclosed t ht).1
  | case2 visited node rest h =>
    intro hq _ hfalse
    rw [bfsGround] at hfalse; simp only [if_pos h] at hfalse
    simp at hfalse
  | case3 visited node rest h newNbrs ih =>
    intro hq hinv hfalse
    rw [bfsGround] at hfalse; simp only [if_neg h] at hfalse
    have hstep := ih ?_ ?_ hfalse
    · intro v hv t hreach
      exact hstep v (mem_foldl_ins _ _ _ |>.mpr (Or.inl hv)) t hreach
    · intro x hx
      rcases List.mem_append.mp hx with hx | hx
      · exact (mem_foldl_ins _ _ _).mpr (Or.inl (hq x (List.mem_cons_of_mem _ hx)))
      · exact (mem_foldl_ins _ _ _).mpr (Or.inr hx)
    · intro v hv
      rcases (mem_foldl_ins _ _ _).mp hv with hv | hv
      · rcases hinv v hv with h1 | h1
        · rcases List.mem_cons.mp h1 with rfl | h1
          · right
            refine ⟨h, ?_⟩
            intro w hw
            by_cases hwv : w ∈ visited
            · exact (mem_foldl_ins _ _ _).mpr (Or.inl hwv)
            · refine (mem_foldl_ins _ _ _).mpr (Or.inr ?_)
              exact List.mem_filter.mpr ⟨hw, by simpa using hwv⟩
          · exact Or.inl (List.mem_append.mpr (Or.inl h1))
        · exact Or.inr ⟨h1.1, fun w hw => (mem_foldl_ins _ _ _).mpr (Or.inl (h1.2 w hw))⟩
      · exact Or.inl (List.mem_append.mpr (Or.inr hv))

/-- The check `_has_resistive_path_to_ground` answers exactly resistive reachability of
ground. -/
theorem has_resistive_path_iff (g : CircuitGraph) (n : String) :
    has_resistive_path_to_ground g n = true ↔
      ∃ t, ReachR g.resistive_adj (pyLower n) t ∧ t ∈ g.ground_nodes := by
  unfold has_resistive_path_to_ground
  constructor
  · intro htrue
    refine bfs_sound g (ReachR g.resistive_adj (pyLower n))
      (fun a b ha hb => ReachR.tail ha hb) _ _ ?_ htrue
    intro x hx
    rcases List.mem_cons.mp hx with rfl | hx
    · exact ReachR.refl
    · simp at hx
  · rintro ⟨t, ht1, ht2⟩
    by_contra hfalse
    rw [Bool.not_eq_true] at hfalse
    have := bfs_complete g [pyLower n] [pyLower n]
      (fun x hx => hx)
      (fun v hv => Or.inl hv)
      hfalse (pyLower n) (List.mem_cons_self _ _) t ht1
    exact this ht2

/-! ## ASCII case lemmas -/

theorem char_toNat_ofNat_valid {n : Nat} (h : Nat.isValidChar n) :
    (Char.ofNat n).toNat = n := by
  unfold Char.ofNat
  rw [dif_pos h]
  rfl

theorem toLower_of_upper {c : Char} (h : c.toNat ≥ 65 ∧ c.toNat ≤ 90) :
    c.toLower = Char.ofNat (c.toNat + 32) := by
  unfold Char.toLower; exact if_pos h

theorem toLower_of_not_upper {c : Char} (h : ¬(c.toNat ≥ 65 ∧ c.toNat ≤ 90)) :
    c.toLower = c := by
  unfold Char.toLower; exact if_neg h

theorem toUpper_of_lower {c : Char} (h : c.toNat ≥ 97 ∧ c.toNat ≤ 122) :
    c.toUpper = Char.ofNat (c.toNat - 32) := by
  unfold Char.toUpper; exact if_pos h

theorem toUpper_of_not_lower {c : Char} (h : ¬(c.toNat ≥ 97 ∧ c.toNat ≤ 122)) :
    c.toUpper = c := by
  unfold Char.toUpper; exact if_neg h

theorem toLower_toUpper (c : Char) : (c.toUpper).toLower = c.toLower := by
  by_cases h : c.toNat ≥ 97 ∧ c.toNat ≤ 122
  · rw [toUpper_of_lower h]
    have hv : Nat.isValidChar (c.toNat - 32) := Or.inl (by omega)
    have ht : (Char.ofNat (c.toNat - 32)).toNat = c.toNat - 32 := char_toNat_ofNat_valid hv
    rw [toLower_of_upper (by rw [ht]; omega)]
    rw [ht]
    have h32 : c.toNat - 32 + 32 = c.toNat := by omega
    rw [h32, Char.ofNat_toNat]
    rw [toLower_of_not_upper (by omega)]
  · rw [toUpper_of_not_lower h]

theorem toLower_toLower (c : Char) : (c.toLower).toLower = c.toLower := by
  by_cases h : c.toNat ≥ 65 ∧ c.toNat ≤ 90
  · rw [toLower_of_upper h]
    have hv : Nat.isValidChar (c.toNat + 32) := Or.inl (by omega)
    have ht : (Char.ofNat (c.toNat + 32)).toNat = c.toNat + 32 := char_toNat_ofNat_valid hv
    rw [toLower_of_not_upper (by rw [ht]; omega)]
  · rw [toLower_of_not_upper h]
    exact toLower_of_not_upper h

/-- Normalization is idempotent. -/
theorem pyLower_pyLower (s : String) : pyLower (pyLower s) = pyLower s := by
  unfold pyLower
  simp only [List.map_map]
  congr 1
  apply List.map_congr_left
  intro c _
  exact toLower_toLower c

/-- Normalization absorbs uppercasing. -/
theorem pyLower_pyUpper (s : String) : pyLower (pyUpper s) = pyLower s := by
  unfold pyLower pyUpper
  simp only [List.map_map]
  congr 1
  apply List.map_congr_left
  intro c _
  exact toLower_toUpper c

/-! ## Graph-builder invariants -/

theorem dget_nil (x : String) : dget [] x = [] := rfl

theorem dget_cons_self {k : String} {s : NSet} {rest : AdjList} :
    dget ((k, s) :: rest) k = s := by
  simp [dget, List.find?]

theorem dget_cons_ne {k x : String} {s : NSet} {rest : AdjList} (h : k ≠ x) :
    dget ((k, s) :: rest) x = dget rest x := by
  have hb : (k == x) = false := by simpa using h
  simp [dget, List.find?, hb]

theorem mem_dget_dadd (d : AdjList) (k v x y : String) :
    y ∈ dget (dadd d k v) x ↔ (x = k ∧ y = v) ∨ y ∈ dget d x := by
  induction d with
  | nil =>
    show y ∈ dget [(k, [v])] x ↔ _
    by_cases hx : k = x
    · subst hx
      rw [dget_cons_self, dget_nil]
      simp
    · rw [dget_cons_ne hx, dget_nil]
      have : ¬(x = k) := fun he => hx he.symm
      simp [this]
  | cons p rest ih =>
    rcases p with ⟨k1, s⟩
    by_cases hk : k1 = k
    · subst hk
      have hd : dadd ((k1, s) :: rest) k1 v = (k1, NSet.ins s v) :: rest := by
        simp [dadd]
      rw [hd]
      by_cases hx : k1 = x
      · subst hx
        rw [dget_cons_self, dget_cons_self]
        rw [NSet.mem_ins]
        tauto
      · rw [dget_cons_ne hx, dget_cons_ne hx]
        have : ¬(x = k1) := fun he => hx he.symm
        simp [this]
    · have hd : dadd ((k1, s) :: rest) k v = (k1, s) :: dadd rest k v := by
        simp [dadd, hk]
      rw [hd]
      by_cases hx : k1 = x
      · subst hx
        rw [dget_cons_self, dget_cons_self]
        have : ¬(k1 = k) := hk
        simp [this]
      · rw [dget_cons_ne hx, dget_cons_ne hx]
        exact ih

/-- Membership after the double `dadd` performed for one symmetric edge. -/
theorem mem_dget_dadd2 (d : AdjList) (n1 n2 x y : String) :
    y ∈ dget (dadd (dadd d n1 n2) n2 n1) x ↔
      (x = n2 ∧ y = n1) ∨ (x = n1 ∧ y = n2) ∨ y ∈ dget d x := by
  rw [mem_dget_dadd, mem_dget_dadd]

theorem SymmAdj.dadd2 {d : AdjList} (hd : SymmAdj d) (n1 n2 : String) :
    SymmAdj (dadd (dadd d n1 n2) n2 n1) := by
  intro a b
  rw [mem_dget_dadd2, mem_dget_dadd2]
  have := hd a b
  tauto

theorem SymmAdj.nil : SymmAdj [] := by
  intro a b
  simp [dget, List.find?]

/-- The invariants of graph construction used by the partition and symmetry
claims: both adjacency dicts are symmetric, every recorded node name is
normalized, adjacency endpoints are registered in `all_nodes`, and `all_nodes`
is duplicate-free. -/
def GraphInv (g : CircuitGraph) : Prop :=
  SymmAdj g.resistive_adj ∧ SymmAdj g.capacitive_adj ∧
  (∀ n ∈ g.all_nodes, pyLower n = n) ∧
  (∀ a b, b ∈ dget g.resistive_adj a → a ∈ g.all_nodes ∧ b ∈ g.all_nodes) ∧
  g.all_nodes.Nodup

theorem nodup_ins {s : NSet} (h : s.Nodup) (x : String) : (NSet.ins s x).Nodup := by
  unfold NSet.ins
  by_cases hx : x ∈ s
  · simpa [if_pos hx] using h
  · rw [if_neg hx]
    simpa [List.nodup_append] using ⟨h, hx⟩

theorem graphInv_addElementSub {g : CircuitGraph} (hg : GraphInv g) (e : Element) :
    GraphInv (addElementSub g e) := by
  obtain ⟨hsr, hsc, hlow, hend, hnd⟩ := hg
  have hlow2 : ∀ n ∈ NSet.ins (NSet.ins g.all_nodes (pyLower e.node1)) (pyLower e.node2),
      pyLower n = n := by
    intro n hn
    rcases NSet.mem_ins.mp hn with hn | rfl
    · rcases NSet.mem_ins.mp hn with hn | rfl
      · exact hlow n hn
      · exact pyLower_pyLower _
    · exact pyLower_pyLower _
  have hmem1 : pyLower e.node1 ∈
      NSet.ins (NSet.ins g.all_nodes (pyLower e.node1)) (pyLower e.node2) :=
    NSet.mem_ins.mpr (Or.inl (NSet.mem_ins.mpr (Or.inr rfl)))
  have hmem2 : pyLower e.node2 ∈
      NSet.ins (NSet.ins g.all_nodes (pyLower e.node1)) (pyLower e.node2) :=
    NSet.mem_ins.mpr (Or.inr rfl)
  have hmono : ∀ x ∈ g.all_nodes,
      x ∈ NSet.ins (NSet.ins g.all_nodes (pyLower e.node1)) (pyLower e.node2) := by
    intro x hx
    exact NSet.mem_ins.mpr (Or.inl (NSet.mem_ins.mpr (Or.inl hx)))
  have hnd2 : (NSet.ins (NSet.ins g.all_nodes (pyLower e.node1)) (pyLower e.node2)).Nodup :=
    nodup_ins (nodup_ins hnd _) _
  unfold addElementSub
  cases e.element_type with
  | RESISTOR =>
    refine ⟨SymmAdj.dadd2 hsr _ _, hsc, hlow2, ?_, hnd2⟩
    intro a b hb
    rcases (mem_dget_dadd2 _ _ _ _ _).mp hb with ⟨rfl, rfl⟩ | ⟨rfl, rfl⟩ | hb
    · exact ⟨hmem2, hmem1⟩
    · exact ⟨hmem1, hmem2⟩
    · obtain ⟨h1, h2⟩ := hend a b hb
      exact ⟨hmono a h1, hmono b h2⟩
  | CAPACITOR =>
    refine ⟨hsr, SymmAdj.dadd2 hsc _ _, hlow2, ?_, hnd2⟩
    intro a b hb
    obtain ⟨h1, h2⟩ := hend a b hb
    exact ⟨hmono a h1, hmono b h2⟩
  | COUPLING_CAPACITOR =>
    refine ⟨hsr, hsc, hlow2, ?_, hnd2⟩
    intro a b hb
    obtain ⟨h1, h2⟩ := hend a b hb
    exact ⟨hmono a h1, hmono b h2⟩
  | INDUCTOR =>
    refine ⟨hsr, hsc, hlow2, ?_, hnd2⟩
    intro a b hb
    obtain ⟨h1, h2⟩ := hend a b hb
    exact ⟨hmono a h1, hmono b h2⟩
  | VOLTAGE_SOURCE =>
    refine ⟨hsr, hsc, hlow2, ?_, hnd2⟩
    intro a b hb
    obtain ⟨h1, h2⟩ := hend a b hb
    exact ⟨hmono a h1, hmono b h2⟩
  | CURRENT_SOURCE =>
    refine ⟨hsr, hsc, hlow2, ?_, hnd2⟩
    intro a b hb
    obtain ⟨h1, h2⟩ := hend a b hb
    exact ⟨hmono a h1, hmono b h2⟩

theorem graphInv_foldl {g : CircuitGraph} (hg : GraphInv g) (l : List Element) :
    GraphInv (l.foldl addElementSub g) := by
  induction l generalizing g with
  | nil => exact hg
  | cons e l ih => exact ih (graphInv_addElementSub hg e)

theorem graphInv_build (g0 : CircuitGraph) (hg : GraphInv g0) (s : Subcircuit) :
    GraphInv (build_from_subcircuit g0 s) := by
  unfold build_from_subcircuit
  apply graphInv_foldl
  exact hg

theorem graphInv_init : GraphInv CircuitGraph.init := by
  refine ⟨SymmAdj.nil, SymmAdj.nil, ?_, ?_, ?_⟩
  · intro n hn; simp [CircuitGraph.init] at hn
  · intro a b hb; simp [CircuitGraph.init, dget, List.find?] at hb
  · simp [CircuitGraph.init]

/-! ## Partition property of the component loop -/

/-- A visited set closed under resistive reachability. -/
def ReachClosed (g : CircuitGraph) (visited : NSet) : Prop :=
  ∀ v ∈ visited, ∀ w, ReachR g.resistive_adj v w → w ∈ visited

theorem gaccGo_spec (g : CircuitGraph) (hsym : SymmAdj g.resistive_adj) :
    ∀ (l : List String) (visited : NSet),
    (∀ n ∈ l, pyLower n = n) →
    ReachClosed g visited →
    (∀ c ∈ gaccGo g l visited, ∀ x ∈ c, x ∉ visited) ∧
    (∀ c ∈ gaccGo g l visited, ∃ root, root ∈ l ∧
      ∀ x, x ∈ c ↔ ReachR g.resistive_adj root x) ∧
    List.Pairwise (fun c1 c2 => ∀ x, x ∈ c1 → x ∉ c2) (gaccGo g l visited) ∧
    (∀ n ∈ l, n ∈ visited ∨ ∃ c ∈ gaccGo g l visited, n ∈ c) := by
  intro l
  induction l with
  | nil =>
    intro visited _ _
    refine ⟨?_, ?_, ?_, ?_⟩ <;> simp [gaccGo]
  | cons node rest ih =>
    intro visited hlow hcl
    by_cases hv : node ∈ visited
    · have hgo : gaccGo g (node :: rest) visited = gaccGo g rest visited := by
        simp [gaccGo, hv]
      obtain ⟨A, B, C, D⟩ := ih visited (fun n hn => hlow n (List.mem_cons_of_mem _ hn)) hcl
      rw [hgo]
      refine ⟨A, ?_, C, ?_⟩
      · intro c hc
        obtain ⟨root, hr1, hr2⟩ := B c hc
        exact ⟨root, List.mem_cons_of_mem _ hr1, hr2⟩
      · intro n hn
        rcases List.mem_cons.mp hn with rfl | hn
        · exact Or.inl hv
        · exact D n hn
    · have hgo : gaccGo g (node :: rest) visited =
          get_resistive_connected_component g node ::
            gaccGo g rest ((get_resistive_connected_component g node).foldl NSet.ins visited) := by
        simp [gaccGo, hv]
      set comp := get_resistive_connected_component g node with hcomp
      have hlnode : pyLower node = node := hlow node (List.mem_cons_self _ _)
      have hmemc : ∀ x, x ∈ comp ↔ ReachR g.resistive_adj node x := by
        intro x
        rw [hcomp, mem_rcc_iff, hlnode]
      have hdisj : ∀ x ∈ comp, x ∉ visited := by
        intro x hx hxv
        have h1 : ReachR g.resistive_adj node x := (hmemc x).mp hx
        have h2 : ReachR g.resistive_adj x node := ReachR.symm hsym h1
        exact hv (hcl x hxv node h2)
      have hcl2 : ReachClosed g (comp.foldl NSet.ins visited) := by
        intro v hvv w hw
        rcases (mem_foldl_ins _ _ _).mp hvv with hvv | hvv
        · exact (mem_foldl_ins _ _ _).mpr (Or.inl (hcl v hvv w hw))
        · refine (mem_foldl_ins _ _ _).mpr (Or.inr ?_)
          exact (hmemc w).mpr (ReachR.trans ((hmemc v).mp hvv) hw)
      obtain ⟨A, B, C, D⟩ := ih (comp.foldl NSet.ins visited)
        (fun n hn => hlow n (List.mem_cons_of_mem _ hn)) hcl2
      rw [hgo]
      refine ⟨?_, ?_, ?_, ?_⟩
      · intro c hc x hx
        rcases List.mem_cons.mp hc with rfl | hc
        · exact hdisj x hx
        · intro hxv
          exact A c hc x hx ((mem_foldl_ins _ _ _).mpr (Or.inl hxv))
      · intro c hc
        rcases List.mem_cons.mp hc with rfl | hc
        · exact ⟨node, List.mem_cons_self _ _, hmemc⟩
        · obtain ⟨root, hr1, hr2⟩ := B c hc
          exact ⟨root, List.mem_cons_of_mem _ hr1, hr2⟩
      · refine List.Pairwise.cons ?_ C
        intro c hc x hx
        exact fun hxc => A c hc x hxc ((mem_foldl_ins _ _ _).mpr (Or.inr hx))
      · intro n hn
        rcases List.mem_cons.mp hn with rfl | hn
        · exact Or.inr ⟨comp, List.mem_cons_self _ _, (hmemc n).mpr ReachR.refl⟩
        · rcases D n hn with hD | ⟨c, hc1, hc2⟩
          · rcases (mem_foldl_ins _ _ _).mp hD with hD | hD
            · exact Or.inl hD
            · exact Or.inr ⟨comp, List.mem_cons_self _ _, hD⟩
          · exact Or.inr ⟨c, List.mem_cons_of_mem _ hc1, hc2⟩

/-- Resistive reachability stays inside `all_nodes` for invariant graphs. -/
theorem reach_mem_all_nodes {g : CircuitGraph}
    (hend : ∀ a b, b ∈ dget g.resistive_adj a → a ∈ g.all_nodes ∧ b ∈ g.all_nodes)
    {root x : String} (hroot : root ∈ g.all_nodes)
    (h : ReachR g.resistive_adj root x) : x ∈ g.all_nodes := by
  induction h with
  | refl => exact hroot
  | tail _ hw ih => exact (hend _ _ hw).2

/-! ## Detector findings: shape lemmas -/

theorem mem_floatingNodeFindings {g : CircuitGraph} {oc : OpenCircuit}
    (h : oc ∈ floatingNodeFindings g) :
    oc.open_type = OpenType.FLOATING_NODE ∧ oc.affected_elements = [] := by
  unfold floatingNodeFindings at h
  obtain ⟨node, _, rfl⟩ := List.mem_map.mp h
  exact ⟨rfl, rfl⟩

theorem mem_isolatedComponentFindings {g : CircuitGraph} {oc : OpenCircuit}
    (h : oc ∈ isolatedComponentFindings g) :
    oc.open_type = OpenType.ISOLATED_COMPONENT := by
  unfold isolatedComponentFindings at h
  obtain ⟨c, _, rfl⟩ := List.mem_map.mp h
  rfl

theorem mem_floatingPortFindings {g : CircuitGraph} {oc : OpenCircuit}
    (h : oc ∈ floatingPortFindings g) :
    oc.open_type = OpenType.FLOATING_PORT ∧ oc.affected_elements = [] := by
  unfold floatingPortFindings at h
  obtain ⟨port, _, rfl⟩ := List.mem_map.mp h
  exact ⟨rfl, rfl⟩

theorem mem_capacitorOnlyFindings {g : CircuitGraph} {oc : OpenCircuit}
    (h : oc ∈ capacitorOnlyFindings g) :
    oc.open_type = OpenType.CAPACITOR_ONLY := by
  unfold capacitorOnlyFindings at h
  obtain ⟨node, _, rfl⟩ := List.mem_map.mp h
  rfl

theorem mem_dcFloatingFindings {g : CircuitGraph} {oc : OpenCircuit}
    (h : oc ∈ dcFloatingFindings g) :
    oc.open_type = OpenType.DC_FLOATING_NODE := by
  unfold dcFloatingFindings at h
  obtain ⟨node, _, rfl⟩ := List.mem_map.mp h
  rfl

theorem filter_beq_of_nodup {l : List String} {n : String}
    (hd : l.Nodup) (hn : n ∈ l) : l.filter (fun x => x == n) = [n] := by
  induction l with
  | nil => simp at hn
  | cons a l ih =>
    rcases List.mem_cons.mp hn with rfl | hn
    · have hnotin : n ∉ l := (List.nodup_cons.mp hd).1
      have : l.filter (fun x => x == n) = [] := by
        apply List.filter_eq_nil_iff.mpr
        intro x hx
        simp only [beq_iff_eq]
        intro he
        exact hnotin (he ▸ hx)
      simp [List.filter, this]
    · have ha : (a == n) = false := by
        simp only [beq_eq_false_iff_ne]
        intro he
        exact (List.nodup_cons.mp hd).1 (he ▸ hn)
      simp only [List.filter, ha]
      exact ih (List.nodup_cons.mp hd).2 hn

/-! ## Case variance of netlists -/

/-- Two elements that differ only in the letter case of their name and of
their endpoint spellings. -/
def CaseVariantElem (e1 e2 : Element) : Prop :=
  pyLower e1.name = pyLower e2.name ∧ pyLower e1.node1 = pyLower e2.node1 ∧
  pyLower e1.node2 = pyLower e2.node2 ∧ e1.value = e2.value ∧
  e1.element_type = e2.element_type

/-- Two subcircuit templates that differ only in letter case (node names,
port names, element names). -/
def CaseVariantSub (s1 s2 : Subcircuit) : Prop :=
  s1.ports.map pyLower = s2.ports.map pyLower ∧
  List.Forall₂ CaseVariantElem s1.elements s2.elements

/-- Agreement of two graphs on every field except the element registry. -/
def AgreeCore (g1 g2 : CircuitGraph) : Prop :=
  g1.resistive_adj = g2.resistive_adj ∧ g1.capacitive_adj = g2.capacitive_adj ∧
  g1.all_nodes = g2.all_nodes ∧ g1.port_nodes = g2.port_nodes ∧
  g1.ground_nodes = g2.ground_nodes

theorem agreeCore_addElementSub {g1 g2 : CircuitGraph} (hg : AgreeCore g1 g2)
    {e1 e2 : Element} (he : CaseVariantElem e1 e2) :
    AgreeCore (addElementSub g1 e1) (addElementSub g2 e2) := by
  obtain ⟨hr, hc, ha, hp, hgr⟩ := hg
  obtain ⟨_, h1, h2, _, hty⟩ := he
  unfold addElementSub
  rw [← hty, h1, h2, hr, hc, ha]
  cases e1.element_type <;> exact ⟨rfl, rfl, rfl, hp, hgr⟩

theorem agreeCore_foldl {g1 g2 : CircuitGraph} (hg : AgreeCore g1 g2)
    {l1 l2 : List Element} (hl : List.Forall₂ CaseVariantElem l1 l2) :
    AgreeCore (l1.foldl addElementSub g1) (l2.foldl addElementSub g2) := by
  induction hl generalizing g1 g2 with
  | nil => exact hg
  | cons he _ ih => exact ih (agreeCore_addElementSub hg he)

/-! ## Flattening failure on port mismatch -/

theorem foldlM_flatten_error (nl : TopLevelNetlist) :
    ∀ (insts : List SubcircuitInstance) (g : CircuitGraph),
    (∃ i ∈ insts, ∃ t, dictFind nl.subcircuits i.subcircuit_type = some t ∧
      t.ports.length ≠ i.connections.length) →
    ∃ e, insts.foldlM (flattenInstance nl) g = Except.error e := by
  intro insts
  induction insts with
  | nil =>
    intro g h
    simp at h
  | cons i rest ih =>
    intro g h
    rcases hres : flattenInstance nl g i with e | g2
    · exact ⟨e, by rw [List.foldlM_cons, hres]; rfl⟩
    · have hrest : ∃ j ∈ rest, ∃ t, dictFind nl.subcircuits j.subcircuit_type = some t ∧
          t.ports.length ≠ j.connections.length := by
        rcases h with ⟨j, hj, t, ht, hlen⟩
        rcases List.mem_cons.mp hj with rfl | hj
        · exfalso
          unfold flattenInstance at hres
          rw [ht] at hres
          simp [hlen] at hres
        · exact ⟨j, hj, t, ht, hlen⟩
      obtain ⟨e, he⟩ := ih g2 hrest
      refine ⟨e, ?_⟩
      rw [List.foldlM_cons, hres]
      simpa using he

theorem foldlM_flatten_mismatch (nl : TopLevelNetlist) :
    ∀ (insts : List SubcircuitInstance) (g : CircuitGraph),
    (∀ i ∈ insts, ∃ t, dictFind nl.subcircuits i.subcircuit_type = some t) →
    (∃ i ∈ insts, ∃ t, dictFind nl.subcircuits i.subcircuit_type = some t ∧
      t.ports.length ≠ i.connections.length) →
    ∃ i t, i ∈ insts ∧ dictFind nl.subcircuits i.subcircuit_type = some t ∧
      t.ports.length ≠ i.connections.length ∧
      insts.foldlM (flattenInstance nl) g =
        Except.error (FlattenError.portMismatch i.instance_name i.subcircuit_type
          t.ports.length i.connections.length) := by
  intro insts
  induction insts with
  | nil =>
    intro g _ h
    simp at h
  | cons i rest ih =>
    intro g hknown h
    obtain ⟨t, ht⟩ := hknown i (List.mem_cons_self _ _)
    by_cases hlen : t.ports.length = i.connections.length
    · have hok : ∃ g2, flattenInstance nl g i = Except.ok g2 := by
        simp only [flattenInstance, ht]
        rw [if_pos hlen]
        exact ⟨_, rfl⟩
      obtain ⟨g2, hg2⟩ := hok
      have hrest : ∃ j ∈ rest, ∃ t2, dictFind nl.subcircuits j.subcircuit_type = some t2 ∧
          t2.ports.length ≠ j.connections.length := by
        rcases h with ⟨j, hj, t2, ht2, hlen2⟩
        rcases List.mem_cons.mp hj with rfl | hj
        · rw [ht] at ht2
          cases ht2
          exact absurd hlen hlen2
        · exact ⟨j, hj, t2, ht2, hlen2⟩
      obtain ⟨j, t2, hj, ht2, hlen2, heq⟩ :=
        ih g2 (fun x hx => hknown x (List.mem_cons_of_mem _ hx)) hrest
      refine ⟨j, t2, List.mem_cons_of_mem _ hj, ht2, hlen2, ?_⟩
      rw [List.foldlM_cons, hg2]
      simpa using heq
    · refine ⟨i, t, List.mem_cons_self _ _, ht, hlen, ?_⟩
      have herr : flattenInstance nl g i = Except.error
          (FlattenError.portMismatch i.instance_name i.subcircuit_type
            t.ports.length i.connections.length) := by
        simp only [flattenInstance, ht]
        rw [if_neg hlen]
      rw [List.foldlM_cons, herr]
      rfl

theorem build_from_netlist_error {nl : TopLevelNetlist} {e : FlattenError}
    (h : nl.instances.foldlM (flattenInstance nl) CircuitGraph.init = Except.error e) :
    build_from_netlist CircuitGraph.init nl = Except.error e ∧
    flatten_and_detect nl = Except.error e := by
  have hb : build_from_netlist CircuitGraph.init nl = Except.error e := by
    unfold build_from_netlist
    rw [h]
    rfl
  refine ⟨hb, ?_⟩
  unfold flatten_and_detect
  rw [hb]
  rfl

/-! ## Claims -/

/-- C1 — refuted by evaluation (code bug): `build_from_subcircuit` adds the
symmetric capacitive edge only for `ElementType.CAPACITOR`; a
`COUPLING_CAPACITOR` element registers its nodes and itself but adds no edge
at all, so on the input of the repository unit test
`test_coupling_capacitor_handling` both adjacency dicts stay empty (the test
asserts `"b" in graph.capacitive_adj["a"]`).  Retyping the very same element
as a plain `CAPACITOR` produces the expected symmetric capacitive edge. -/
theorem claim_C1 :
    (build_from_subcircuit CircuitGraph.init subcktCC).capacitive_adj = [] ∧
    (build_from_subcircuit CircuitGraph.init subcktCC).resistive_adj = [] ∧
    (build_from_subcircuit CircuitGraph.init subcktCC).all_nodes = ["a", "b"] ∧
    (build_from_subcircuit CircuitGraph.init subcktCC).elements.map
      (fun p => p.1) = ["cc1"] ∧
    (build_from_subcircuit CircuitGraph.init subcktCCasCap).capacitive_adj =
      [("a", ["b"]), ("b", ["a"])] := by
  refine ⟨rfl, rfl, rfl, rfl, rfl⟩

/-- C2 — in a flattened detection run, a node of the graph that is not a
ground name, has positive capacitive degree and no resistive path to ground
produces exactly one `DC_FLOATING_NODE` finding: severity `error`, affected
elements exactly the registered elements incident on the node, and a
description quoting the capacitive-connection count and the resistive degree
verbatim.  (`all_nodes.Nodup` is an invariant of every built graph.) -/
theorem claim_C2 (d : OpenCircuitDetector) (n : String)
    (hnodup : d.graph.all_nodes.Nodup)
    (hmem : n ∈ d.graph.all_nodes)
    (hground : n ∉ d.graph.ground_nodes)
    (hcdeg : 0 < get_capacitive_degree d.graph n)
    (hpath : has_resistive_path_to_ground d.graph n = false) :
    (detect_all_flattened d).2.filter
        (fun oc => oc.open_type == OpenType.DC_FLOATING_NODE && oc.node == n) =
      [{ node := n,
         open_type := OpenType.DC_FLOATING_NODE,
         description := "Node " ++ apos ++ n ++ apos ++ " has " ++
           toString (get_capacitive_degree d.graph n) ++
           " capacitive connections but no DC path to ground (r_degree=" ++
           toString (get_resistive_degree d.graph n) ++ ")",
         affected_elements := (d.graph.elements.filter (fun p =>
           pyLower p.2.node1 == n || pyLower p.2.node2 == n)).map (fun p => p.1),
         severity := "error" }] := by
  have hsplit : (detect_all_flattened d).2 =
      ((floatingNodeFindings d.graph ++ isolatedComponentFindings d.graph) ++
        floatingPortFindings d.graph) ++ dcFloatingFindings d.graph := rfl
  rw [hsplit, List.filter_append, List.filter_append, List.filter_append]
  have hne1 : (OpenType.FLOATING_NODE == OpenType.DC_FLOATING_NODE) = false := rfl
  have hne2 : (OpenType.ISOLATED_COMPONENT == OpenType.DC_FLOATING_NODE) = false := rfl
  have hne3 : (OpenType.FLOATING_PORT == OpenType.DC_FLOATING_NODE) = false := rfl
  have h1 : (floatingNodeFindings d.graph).filter
      (fun oc => oc.open_type == OpenType.DC_FLOATING_NODE && oc.node == n) = [] := by
    apply List.filter_eq_nil_iff.mpr
    intro oc hoc
    rw [(mem_floatingNodeFindings hoc).1]
    simp [hne1]
  have h2 : (isolatedComponentFindings d.graph).filter
      (fun oc => oc.open_type == OpenType.DC_FLOATING_NODE && oc.node == n) = [] := by
    apply List.filter_eq_nil_iff.mpr
    intro oc hoc
    rw [mem_isolatedComponentFindings hoc]
    simp [hne2]
  have h3 : (floatingPortFindings d.graph).filter
      (fun oc => oc.open_type == OpenType.DC_FLOATING_NODE && oc.node == n) = [] := by
    apply List.filter_eq_nil_iff.mpr
    intro oc hoc
    rw [(mem_floatingPortFindings hoc).1]
    simp [hne3]
  rw [h1, h2, h3]
  have hcond : (fun node => decide (node ∉ d.graph.ground_nodes) &&
      decide (0 < get_capacitive_degree d.graph node) &&
      !has_resistive_path_to_ground d.graph node) n = true := by
    simp [hground, hcdeg, hpath]
  have h4 : (dcFloatingFindings d.graph).filter
      (fun oc => oc.open_type == OpenType.DC_FLOATING_NODE && oc.node == n) =
      (((d.graph.all_nodes.filter (fun node => decide (node ∉ d.graph.ground_nodes) &&
          decide (0 < get_capacitive_degree d.graph node) &&
          !has_resistive_path_to_ground d.graph node)).filter
        (fun node => node == n)).map (fun node =>
          ({ node := node,
             open_type := OpenType.DC_FLOATING_NODE,
             description := dcDescription d.graph node,
             affected_elements := get_connected_elements d.graph node,
             severity := "error" } : OpenCircuit))) := by
    unfold dcFloatingFindings
    rw [List.filter_map]
    congr 1
  rw [h4]
  have h5 : ((d.graph.all_nodes.filter (fun node =>
      decide (node ∉ d.graph.ground_nodes) &&
      decide (0 < get_capacitive_degree d.graph node) &&
      !has_resistive_path_to_ground d.graph node)).filter (fun node => node == n)) = [n] := by
    apply filter_beq_of_nodup
    · exact List.Nodup.filter _ hnodup
    · exact List.mem_filter.mpr ⟨hmem, hcond⟩
  rw [h5]
  rfl

/-- C2 witness: in the capacitor-only fixture, node `x` satisfies every
hypothesis of C2 and the flattened run reports exactly one DC-floating finding
for it with the literal description, the incident element `c1` and
severity `error`. -/
theorem claim_C2_witness :
    graphCapOnly.all_nodes.Nodup ∧
    "x" ∈ graphCapOnly.all_nodes ∧
    "x" ∉ graphCapOnly.ground_nodes ∧
    0 < get_capacitive_degree graphCapOnly "x" ∧
    has_resistive_path_to_ground graphCapOnly "x" = false ∧
    (detect_all_flattened detCapOnly).2.filter
        (fun oc => oc.open_type == OpenType.DC_FLOATING_NODE && oc.node == "x") =
      [{ node := "x",
         open_type := OpenType.DC_FLOATING_NODE,
         description := "Node " ++ apos ++ "x" ++ apos ++ " has " ++
           toString (get_capacitive_degree graphCapOnly "x") ++
           " capacitive connections but no DC path to ground (r_degree=" ++
           toString (get_resistive_degree graphCapOnly "x") ++ ")",
         affected_elements := (graphCapOnly.elements.filter (fun p =>
           pyLower p.2.node1 == "x" || pyLower p.2.node2 == "x")).map (fun p => p.1),
         severity := "error" }] := by
  have hpath : has_resistive_path_to_ground graphCapOnly "x" = false := by
    simp [has_resistive_path_to_ground, bfsGround, graphCapOnly, subcktCapOnly,
      build_from_subcircuit, addElementSub, CircuitGraph.init, pyLower,
      get_resistive_neighbors, dget, NSet.ins, dadd]
  refine ⟨by decide, by decide, by decide, by decide, hpath, ?_⟩
  exact claim_C2 detCapOnly "x" (by decide) (by decide) (by decide) (by decide) hpath

/-- C3 — a hierarchical netlist with an instantiation whose connection count
differs from the port count of its template makes the flattening (and so the whole
flatten-and-detect pipeline) fail hard with a structural error; when every
template of every instantiation resolves, that error names a mismatched
instantiation and template with both lengths, so nothing is truncated or
padded.  (`build_from_netlist` is modelled from spec §4.2/§7; its body is not
under `src/`.) -/
theorem claim_C3 (nl : TopLevelNetlist)
    (hmis : ∃ i ∈ nl.instances, ∃ t,
      dictFind nl.subcircuits i.subcircuit_type = some t ∧
      t.ports.length ≠ i.connections.length) :
    (∃ e, build_from_netlist CircuitGraph.init nl = Except.error e ∧
      flatten_and_detect nl = Except.error e) ∧
    ((∀ i ∈ nl.instances, ∃ t, dictFind nl.subcircuits i.subcircuit_type = some t) →
      ∃ i t, i ∈ nl.instances ∧
        dictFind nl.subcircuits i.subcircuit_type = some t ∧
        t.ports.length ≠ i.connections.length ∧
        build_from_netlist CircuitGraph.init nl =
          Except.error (FlattenError.portMismatch i.instance_name i.subcircuit_type
            t.ports.length i.connections.length) ∧
        flatten_and_detect nl =
          Except.error (FlattenError.portMismatch i.instance_name i.subcircuit_type
            t.ports.length i.connections.length)) := by
  constructor
  · obtain ⟨e, he⟩ := foldlM_flatten_error nl nl.instances CircuitGraph.init hmis
    obtain ⟨h1, h2⟩ := build_from_netlist_error he
    exact ⟨e, h1, h2⟩
  · intro hknown
    obtain ⟨i, t, hi, ht, hlen, heq⟩ :=
      foldlM_flatten_mismatch nl nl.instances CircuitGraph.init hknown hmis
    obtain ⟨h1, h2⟩ := build_from_netlist_error heq
    exact ⟨i, t, hi, ht, hlen, h1, h2⟩

/-- C3 witness: instantiating the one-port template `mysub` with two
connections makes the pipeline abort with the port-mismatch error naming the
instantiation `x0`, the template `mysub` and both lengths. -/
theorem claim_C3_witness :
    (∃ i ∈ netlistMismatch.instances, ∃ t,
      dictFind netlistMismatch.subcircuits i.subcircuit_type = some t ∧
      t.ports.length ≠ i.connections.length) ∧
    (∃ e, build_from_netlist CircuitGraph.init netlistMismatch = Except.error e ∧
      flatten_and_detect netlistMismatch = Except.error e) := by
  have hmis : ∃ i ∈ netlistMismatch.instances, ∃ t,
      dictFind netlistMismatch.subcircuits i.subcircuit_type = some t ∧
      t.ports.length ≠ i.connections.length := by
    refine ⟨{ instance_name := "x0", subcircuit_type := "mysub",
              connections := ["p1", "p2"] }, by decide, tmplW, by decide, by decide⟩
  exact ⟨hmis, (claim_C3 netlistMismatch hmis).1⟩

/-- C4 — corrected.  The first half of the claim holds: normalization is
case-insensitive.  The second half is amended: graphs built from two netlists
differing only in letter case agree on `resistive_adj`, `capacitive_adj`,
`all_nodes`, `port_nodes` and `ground_nodes` — but not necessarily on the
`elements` registry, which keys elements by their original-case names and
stores the original-case endpoint spellings (see the counterexample). -/
theorem claim_C4 (s : String) (s1 s2 : Subcircuit) (h : CaseVariantSub s1 s2) :
    pyLower s = pyLower (pyUpper s) ∧
    pyLower s = pyLower (pyLower s) ∧
    AgreeCore (build_from_subcircuit CircuitGraph.init s1)
      (build_from_subcircuit CircuitGraph.init s2) := by
  refine ⟨(pyLower_pyUpper s).symm, (pyLower_pyLower s).symm, ?_⟩
  unfold build_from_subcircuit
  apply agreeCore_foldl _ h.2
  refine ⟨rfl, rfl, rfl, ?_, rfl⟩
  show (s1.ports.map pyLower).foldl NSet.ins [] = (s2.ports.map pyLower).foldl NSet.ins []
  rw [h.1]

/-- C4 counterexample: two single-resistor netlists differing only in letter
case (element name `r1`/`R1`, nodes `A,B`/`a,b`, port `A`/`a`) build graphs
whose `elements` registries differ — the registry is not case-normalized — so
the built graphs are not identical in every field as the claim states. -/
theorem claim_C4_counterexample :
    CaseVariantSub subcktCaseA subcktCaseB ∧
    (build_from_subcircuit CircuitGraph.init subcktCaseA).elements ≠
      (build_from_subcircuit CircuitGraph.init subcktCaseB).elements ∧
    (build_from_subcircuit CircuitGraph.init subcktCaseA).elements.map
      (fun p => p.1) = ["r1"] ∧
    (build_from_subcircuit CircuitGraph.init subcktCaseB).elements.map
      (fun p => p.1) = ["R1"] := by
  refine ⟨⟨by decide, ?_⟩, by decide, by decide, by decide⟩
  exact List.Forall₂.cons (by refine ⟨?_, ?_, ?_, rfl, rfl⟩ <;> decide) List.Forall₂.nil

/-- C4 witness: the amended statement applied to the concrete case-variant
pair and the spelling `VSS`. -/
theorem claim_C4_witness :
    CaseVariantSub subcktCaseA subcktCaseB ∧
    pyLower "VSS" = pyLower (pyUpper "VSS") ∧
    AgreeCore (build_from_subcircuit CircuitGraph.init subcktCaseA)
      (build_from_subcircuit CircuitGraph.init subcktCaseB) := by
  have hvar : CaseVariantSub subcktCaseA subcktCaseB := by
    refine ⟨by decide, ?_⟩
    exact List.Forall₂.cons (by refine ⟨?_, ?_, ?_, rfl, rfl⟩ <;> decide) List.Forall₂.nil
  have h := claim_C4 "VSS" subcktCaseA subcktCaseB hvar
  exact ⟨hvar, h.1, h.2.2⟩

/-- C5 — a detection run (standard or flattened) leaves the graph completely
unchanged — so in particular `resistive_adj`, `capacitive_adj`, `all_nodes`,
`port_nodes`, `ground_nodes` and `elements` are equal before and after — and
the only detector state it writes is the `issues` list it returns. -/
theorem claim_C5 (d : OpenCircuitDetector) :
    (detect_all d).1.graph = d.graph ∧
    (detect_all_flattened d).1.graph = d.graph ∧
    (detect_all d).1.issues = (detect_all d).2 ∧
    (detect_all_flattened d).1.issues = (detect_all_flattened d).2 :=
  ⟨rfl, rfl, rfl, rfl⟩

/-- C6 — both resistive-path checks answer `true` exactly when a path through
resistive edges alone reaches a ground name (so a path using even one
capacitive edge never makes them answer `true`), and a ground node itself
trivially answers `true`. -/
theorem claim_C6 (g : CircuitGraph) (n : String) :
    (has_resistive_path_to_ground g n = true ↔
      ∃ t, ReachR g.resistive_adj (pyLower n) t ∧ t ∈ g.ground_nodes) ∧
    (has_ground_connection g n = true ↔
      ∃ t, ReachR g.resistive_adj (pyLower n) t ∧ t ∈ g.ground_nodes) ∧
    (pyLower n ∈ g.ground_nodes →
      has_resistive_path_to_ground g n = true ∧ has_ground_connection g n = true) := by
  refine ⟨has_resistive_path_iff g n, has_ground_connection_iff g n, ?_⟩
  intro hg
  constructor
  · exact (has_resistive_path_iff g n).mpr ⟨pyLower n, ReachR.refl, hg⟩
  · exact (has_ground_connection_iff g n).mpr ⟨pyLower n, ReachR.refl, hg⟩

/-- C6 witness: in the grounded-resistor fixture, the checks answer `true` on
`A` (via the explicit one-edge resistive path to `vss`) and on the ground
name `VSS` itself; in the capacitor-only fixture, where the only path from
`x` to the grounded port goes through a capacitor, they answer `false`. -/
theorem claim_C6_witness :
    has_resistive_path_to_ground graphR "A" = true ∧
    has_ground_connection graphR "A" = true ∧
    has_ground_connection graphR "VSS" = true := by
  have hedge : "vss" ∈ dget graphR.resistive_adj (pyLower "A") := by decide
  refine ⟨?_, ?_, ?_⟩
  · exact (claim_C6 graphR "A").1.mpr ⟨"vss", ReachR.single hedge, by decide⟩
  · exact (claim_C6 graphR "A").2.1.mpr ⟨"vss", ReachR.single hedge, by decide⟩
  · exact ((claim_C6 graphR "VSS").2.2 (by decide)).2

/-- C7 — for every built graph, `get_all_connected_components` partitions
`all_nodes`: a node is in `all_nodes` exactly when it lies in some returned
component, and distinct returned components are disjoint. -/
theorem claim_C7 (s : Subcircuit) :
    (∀ n, n ∈ (build_from_subcircuit CircuitGraph.init s).all_nodes ↔
      ∃ c ∈ get_all_connected_components (build_from_subcircuit CircuitGraph.init s),
        n ∈ c) ∧
    List.Pairwise (fun c1 c2 => ∀ x, x ∈ c1 → x ∉ c2)
      (get_all_connected_components (build_from_subcircuit CircuitGraph.init s)) := by
  obtain ⟨hsym, _, hlow, hend, _⟩ := graphInv_build CircuitGraph.init graphInv_init s
  obtain ⟨A, B, C, D⟩ := gaccGo_spec (build_from_subcircuit CircuitGraph.init s) hsym
    (build_from_subcircuit CircuitGraph.init s).all_nodes [] hlow
    (by intro v hv; simp at hv)
  have hgacc : get_all_connected_components (build_from_subcircuit CircuitGraph.init s) =
      gaccGo (build_from_subcircuit CircuitGraph.init s)
        (build_from_subcircuit CircuitGraph.init s).all_nodes [] := rfl
  rw [hgacc]
  refine ⟨?_, C⟩
  intro n
  constructor
  · intro hn
    rcases D n hn with hD | hD
    · simp at hD
    · exact hD
  · rintro ⟨c, hc, hnc⟩
    obtain ⟨root, hr1, hr2⟩ := B c hc
    exact reach_mem_all_nodes hend hr1 ((hr2 n).mp hnc)

/-- C7 witness: in the capacitor-only fixture (no resistive edges), node `x`
lies in some returned component, and the returned components are pairwise
disjoint. -/
theorem claim_C7_witness :
    (∃ c ∈ get_all_connected_components graphCapOnly, "x" ∈ c) ∧
    List.Pairwise (fun c1 c2 => ∀ x, x ∈ c1 → x ∉ c2)
      (get_all_connected_components graphCapOnly) := by
  have h := claim_C7 subcktCapOnly
  exact ⟨(h.1 "x").mp (by decide), h.2⟩

/-- C8 — after building any graph from a subcircuit, both adjacency relations
are symmetric: for every pair of nodes, each is recorded as a neighbor of the
other or neither is. -/
theorem claim_C8 (s : Subcircuit) (a b : String) :
    (b ∈ dget (build_from_subcircuit CircuitGraph.init s).resistive_adj a ↔
      a ∈ dget (build_from_subcircuit CircuitGraph.init s).resistive_adj b) ∧
    (b ∈ dget (build_from_subcircuit CircuitGraph.init s).capacitive_adj a ↔
      a ∈ dget (build_from_subcircuit CircuitGraph.init s).capacitive_adj b) := by
  obtain ⟨hsr, hsc, _, _, _⟩ := graphInv_build CircuitGraph.init graphInv_init s
  exact ⟨hsr b a, hsc b a⟩

/-- C8 witness: the symmetry instance for the grounded-resistor fixture at the
pair `("a", "vss")`, together with the concrete edge in one direction. -/
theorem claim_C8_witness :
    ("vss" ∈ dget (build_from_subcircuit CircuitGraph.init subcktR).resistive_adj "a" ↔
      "a" ∈ dget (build_from_subcircuit CircuitGraph.init subcktR).resistive_adj "vss") ∧
    "vss" ∈ dget (build_from_subcircuit CircuitGraph.init subcktR).resistive_adj "a" := by
  exact ⟨(claim_C8 subcktR "a" "vss").1, by decide⟩

/-- C9 — running `detect_all` twice in succession on the same detector
returns two findings lists that are identical in order and content: the run
starts by resetting `self.issues`, and nothing else persists. -/
theorem claim_C9 (d : OpenCircuitDetector) :
    (detect_all ((detect_all d).1)).2 = (detect_all d).2 := rfl

/-- C10 — every `FLOATING_NODE` and every `FLOATING_PORT` finding produced by
either detection run has an empty `affected_elements` list. -/
theorem claim_C10 (d : OpenCircuitDetector) (oc : OpenCircuit)
    (hmem : oc ∈ (detect_all d).2 ∨ oc ∈ (detect_all_flattened d).2)
    (hty : oc.open_type = OpenType.FLOATING_NODE ∨
      oc.open_type = OpenType.FLOATING_PORT) :
    oc.affected_elements = [] := by
  have hstd : (detect_all d).2 =
      ((floatingNodeFindings d.graph ++ isolatedComponentFindings d.graph) ++
        floatingPortFindings d.graph) ++ capacitorOnlyFindings d.graph := rfl
  have hfl : (detect_all_flattened d).2 =
      ((floatingNodeFindings d.graph ++ isolatedComponentFindings d.graph) ++
        floatingPortFindings d.graph) ++ dcFloatingFindings d.graph := rfl
  rcases hmem with hmem | hmem
  · rw [hstd] at hmem
    rcases List.mem_append.mp hmem with hmem | hmem
    · rcases List.mem_append.mp hmem with hmem | hmem
      · rcases List.mem_append.mp hmem with hmem | hmem
        · exact (mem_floatingNodeFindings hmem).2
        · have := mem_isolatedComponentFindings hmem
          rcases hty with hty | hty <;> rw [this] at hty <;> cases hty
      · exact (mem_floatingPortFindings hmem).2
    · have := mem_capacitorOnlyFindings hmem
      rcases hty with hty | hty <;> rw [this] at hty <;> cases hty
  · rw [hfl] at hmem
    rcases List.mem_append.mp hmem with hmem | hmem
    · rcases List.mem_append.mp hmem with hmem | hmem
      · rcases List.mem_append.mp hmem with hmem | hmem
        · exact (mem_floatingNodeFindings hmem).2
        · have := mem_isolatedComponentFindings hmem
          rcases hty with hty | hty <;> rw [this] at hty <;> cases hty
      · exact (mem_floatingPortFindings hmem).2
    · have := mem_dcFloatingFindings hmem
      rcases hty with hty | hty <;> rw [this] at hty <;> cases hty

/-- C10 witness: in the coupling-capacitor fixture, port `a` yields a
`FLOATING_PORT` finding in the standard run, and its `affected_elements` is
empty by C10. -/
theorem claim_C10_witness :
    ocPortA ∈ (detect_all detCC).2 ∧ ocPortA.affected_elements = [] := by
  have hmem : ocPortA ∈ (detect_all detCC).2 := by
    simp [ocPortA, detect_all, floatingNodeFindings, isolatedComponentFindings,
      floatingPortFindings, capacitorOnlyFindings, detCC, graphCC, subcktCC,
      build_from_subcircuit, addElementSub, CircuitGraph.init, pyLower, dget,
      NSet.ins, dadd, get_all_connected_components, gaccGo,
      get_resistive_connected_component, dfsAux, NSet.inter,
      get_connected_elements, get_elements_in_component, isolatedLabel,
      sortNodes, insertSorted, dictSet, apos]
  exact ⟨hmem, claim_C10 detCC _ (Or.inl hmem) (Or.inr rfl)⟩

end OCD
